import Mathlib

/-!
Verification of the remote-terminal bridge core against its specification.

Go strings are modelled as `List Char` (one element per rune).  The byte/rune
distinction is immaterial for the properties below: every marker character the
code inspects is ASCII, and a non-ASCII rune can never be mistaken for one.
-/

set_option autoImplicit false

/-- A Go string, one element per rune. -/
abbrev GoString := List Char

/-- Go `unicode.IsSpace`: the Unicode White_Space property, as used by
`strings.TrimSpace` and `strings.Fields`. -/
def goIsSpace (c : Char) : Bool :=
  let n := c.toNat
  if 9 ≤ n ∧ n ≤ 13 then true
  else if n = 32 ∨ n = 0x85 ∨ n = 0xA0 ∨ n = 0x1680 then true
  else if 0x2000 ≤ n ∧ n ≤ 0x200A then true
  else if n = 0x2028 ∨ n = 0x2029 ∨ n = 0x202F ∨ n = 0x205F ∨ n = 0x3000 then true
  else false

/-- Go `strings.TrimSpace`: drop leading and trailing Unicode white space. -/
def trimSpace (s : GoString) : GoString :=
  ((s.dropWhile goIsSpace).reverse.dropWhile goIsSpace).reverse

/-- Accumulator-style splitter of a string into white-space separated words. -/
def fieldsAux : GoString → GoString → List GoString
  | [], acc => if acc = [] then [] else [acc.reverse]
  | c :: rest, acc =>
    if goIsSpace c then
      (if acc = [] then fieldsAux rest [] else acc.reverse :: fieldsAux rest [])
    else fieldsAux rest (c :: acc)

/-- Go `strings.Fields`: split around runs of white space, dropping empty words. -/
def fields (s : GoString) : List GoString := fieldsAux s []

/-- Go `strings.Split(s, "\n")`: split at every newline; never returns `[]`. -/
def splitChar (sep : Char) : GoString → List GoString
  | [] => [[]]
  | c :: rest =>
    if c = sep then [] :: splitChar sep rest
    else
      match splitChar sep rest with
      | [] => [[c]]
      | h :: t => (c :: h) :: t

/-- The interactive-command table from `isInteractiveCommand` (source order). -/
def interactiveCommands : List GoString :=
  [("claude".toList), ("claude-code".toList), ("aider".toList),
   ("python".toList), ("python3".toList), ("ipython".toList),
   ("node".toList), ("deno".toList), ("bun".toList),
   ("irb".toList), ("ruby".toList),
   ("ghci".toList), ("stack".toList),
   ("lua".toList),
   ("psql".toList), ("mysql".toList), ("redis-cli".toList),
   ("vim".toList), ("nvim".toList), ("emacs".toList), ("nano".toList),
   ("less".toList), ("more".toList),
   ("top".toList), ("htop".toList), ("btop".toList),
   ("watch".toList),
   ("ssh".toList), ("telnet".toList)]

/-- The `for _, cmd := range interactive` comparison loop. -/
def matchesAny (w : GoString) : List GoString → Bool
  | [] => false
  | c :: rest => if w = c then true else matchesAny w rest

/-- Source `isInteractiveCommand`: take the first white-space separated word of the
command and compare it against the interactive-command table. -/
def isInteractiveCommand (cmd : GoString) : Bool :=
  match fields cmd with
  | [] => false
  | firstWord :: _ => matchesAny firstWord interactiveCommands

theorem matchesAny_iff_mem (w : GoString) (l : List GoString) :
    matchesAny w l = true ↔ w ∈ l := by
  induction l with
  | nil => simp [matchesAny]
  | cons c rest ih =>
    simp only [matchesAny]
    by_cases h : w = c
    · simp [h]
    · simp [h, ih]

/-- C6: the classifier accepts exactly the commands whose first
white-space-separated word is in the interactive-command table; a command
with no words (so in particular the empty command) is not interactive. -/
theorem isInteractiveCommand_iff (cmd : GoString) :
    isInteractiveCommand cmd = true ↔
      ∃ w rest, fields cmd = w :: rest ∧ w ∈ interactiveCommands := by
  cases h : fields cmd with
  | nil =>
    simp only [isInteractiveCommand, h]
    constructor
    · intro hfalse; cases hfalse
    · rintro ⟨w, rest, habs, -⟩; cases habs
  | cons w0 rest0 =>
    simp only [isInteractiveCommand, h]
    constructor
    · intro hb
      exact ⟨w0, rest0, rfl, (matchesAny_iff_mem w0 interactiveCommands).mp hb⟩
    · rintro ⟨w, rest, heq, hm⟩
      injection heq with h1 h2
      rw [h1]
      exact (matchesAny_iff_mem w interactiveCommands).mpr hm

/-- First occurrence of a separator character: the prefix before it and the
rest after it, or `none` when the character does not occur. -/
def breakAtChar (sep : Char) : GoString → Option (GoString × GoString)
  | [] => none
  | c :: rest =>
    if c = sep then some ([], rest)
    else (breakAtChar sep rest).map (fun p => (c :: p.1, p.2))

/-- Go `strings.SplitN(s, sep, n)` for a single-character separator: at most `n`
substrings, the last one holding the unsplit remainder. -/
def goSplitNChar (sep : Char) : Nat → GoString → List GoString
  | 0, _ => []
  | n + 1, s =>
    if n = 0 then [s]
    else
      match breakAtChar sep s with
      | none => [s]
      | some (pre, post) => pre :: goSplitNChar sep n post

/-- Go `strings.Contains(s, sub)`: substring search. -/
def containsSub (sub : GoString) : GoString → Bool
  | [] => sub.isEmpty
  | c :: rest => sub.isPrefixOf (c :: rest) || containsSub sub rest

/-- Source `hasMarkdown`: cheap lexical probe for Markdown markers, from the source.
Substring checks first, then a per-line scan of at most 20 lines. -/
def hasMarkdown (s : GoString) : Bool :=
  if containsSub ("```".toList) s ∨ containsSub ("**".toList) s ∨
     containsSub ("~~".toList) s ∨ s.contains '`' ∨ containsSub ("](".toList) s then
    true
  else
    (goSplitNChar '\n' 20 s).any (fun line =>
      let t := trimSpace line
      if t.length < 2 then false
      else if t.getD 0 ' ' = '#' then true
      else if (t.getD 0 ' ' = '-' ∨ t.getD 0 ' ' = '*') ∧ t.getD 1 ' ' = ' ' then true
      else t.contains '*')

/-- One character of `html.EscapeString`. -/
def escapeChar (c : Char) : GoString :=
  if c = '&' then ("&amp;".toList)
  else if c = '\'' then ("&#39;".toList)
  else if c = '<' then ("&lt;".toList)
  else if c = '>' then ("&gt;".toList)
  else if c = '"' then ("&#34;".toList)
  else [c]

/-- Go `html.EscapeString`: escape the five HTML-reserved characters. -/
def escapeString (s : GoString) : GoString := (s.map escapeChar).flatten

/-- Source `formatMarkdownToTelegramHTML`.  The five-phase regex pipeline taken when
the probe fires is kept abstract (parameter `pipeline`): Go regexp semantics
are not shallow-embeddable, and no claim below depends on that branch. -/
def formatMarkdownToTelegramHTML (pipeline : GoString → GoString)
    (input : GoString) : GoString :=
  if input = [] then []
  else if hasMarkdown input = false then escapeString input
  else pipeline input

/-- C7: whenever the cheap probe `hasMarkdown` reports no Markdown, the
formatter's output is exactly the HTML-escape of the input, whatever the
regex pipeline would have done. -/
theorem formatMarkdown_no_markdown_is_escape (pipeline : GoString → GoString)
    (input : GoString) (h : hasMarkdown input = false) :
    formatMarkdownToTelegramHTML pipeline input = escapeString input := by
  unfold formatMarkdownToTelegramHTML
  by_cases hin : input = []
  · subst hin; rfl
  · simp [hin, h]

/-- C7 witness: a concrete plain-text input takes the escape path. -/
theorem formatMarkdown_no_markdown_is_escape_witness :
    hasMarkdown ("plain text 1 < 2".toList) = false ∧
      formatMarkdownToTelegramHTML id ("plain text 1 < 2".toList) =
        escapeString ("plain text 1 < 2".toList) :=
  ⟨by decide, formatMarkdown_no_markdown_is_escape id ("plain text 1 < 2".toList) (by decide)⟩

/-- Go `strings.TrimRight(line, " \t\r")`, as applied per screen line. -/
def trimTrailingWS (line : GoString) : GoString :=
  (line.reverse.dropWhile (fun c => c = ' ' || c = '\t' || c = '\r')).reverse

/-- Source `ScreenReader.Screen`: split the emulator buffer at newlines, scan from
the last line towards the first past the lines whose right-trimmed form is
empty (the Go `lastNonEmpty` backward loop), and join what remains with each
line right-trimmed.  The all-blank buffer yields the empty string. -/
def screenOf (raw : GoString) : GoString :=
  let lines := splitChar '\n' raw
  let revKept := lines.reverse.dropWhile (fun l => (trimTrailingWS l).isEmpty)
  if revKept.isEmpty then []
  else List.intercalate ('\n' :: []) (revKept.reverse.map trimTrailingWS)

/-- The specification's reading of `Screen()`: right-trim every line, remove
the trailing empty lines, join the rest. -/
def screenSpecText (raw : GoString) : GoString :=
  List.intercalate ('\n' :: [])
    ((((splitChar '\n' raw).map trimTrailingWS).reverse.dropWhile List.isEmpty).reverse)

theorem dropWhile_map {α β : Type} (f : α → β) (p : β → Bool) (l : List α) :
    (l.map f).dropWhile p = (l.dropWhile (fun a => p (f a))).map f := by
  induction l with
  | nil => rfl
  | cons a as ih =>
    simp only [List.map_cons, List.dropWhile_cons]
    by_cases h : p (f a)
    · simp [h, ih]
    · simp [h]

/-- C8: `Screen()` returns exactly the per-line right-trimmed text with the
trailing empty lines removed, and an all-blank screen returns the empty
string. -/
theorem screenOf_spec (raw : GoString) :
    screenOf raw = screenSpecText raw ∧
      ((∀ l ∈ splitChar '\n' raw, trimTrailingWS l = []) → screenOf raw = []) := by
  constructor
  · unfold screenOf screenSpecText
    simp only [← List.map_reverse, dropWhile_map]
    have hcond :
        (fun a => ((trimTrailingWS a).isEmpty : Bool)) =
          fun l => (trimTrailingWS l).isEmpty := rfl
    cases hk : (splitChar '\n' raw).reverse.dropWhile (fun l => (trimTrailingWS l).isEmpty) with
    | nil => simp [hk]; rfl
    | cons h t => simp [hk, List.map_reverse]
  · intro hall
    unfold screenOf
    have : (splitChar '\n' raw).reverse.dropWhile (fun l => (trimTrailingWS l).isEmpty) = [] := by
      apply List.dropWhile_eq_nil_iff.mpr
      intro x hx
      have hx' : x ∈ splitChar '\n' raw := List.mem_reverse.mp hx
      simp [hall x hx']
    simp [this]

/-- C8 witness: an all-blank two-line screen renders as the empty string. -/
theorem screenOf_spec_witness : screenOf ("  \n\t ".toList) = [] :=
  (screenOf_spec ("  \n\t ".toList)).2 (by decide)

/-- Source `diffScreens`: line-by-line comparison; a new line is
kept when its index is beyond the old screen or its text differs; if nothing
was kept return the empty string, otherwise the kept lines joined and
white-space-trimmed. -/
def diffScreens (old current : GoString) : GoString :=
  if old = [] then current
  else
    let oldLines := splitChar '\n' old
    let newLines := splitChar '\n' current
    let diffL := newLines.enum.filter
      (fun p => decide (oldLines.length ≤ p.1) || decide (p.2 ≠ oldLines.getD p.1 []))
    if diffL = [] then []
    else trimSpace (List.intercalate ('\n' :: []) (diffL.map (fun p => p.2)))

/-- The `ScreenReader` state: the emulator buffer rendered by the external
virtual terminal, and the last screen captured by `Diff`. -/
structure ScreenReader where
  emuRaw : GoString
  lastScreen : GoString
deriving DecidableEq

/-- Source `ScreenReader.Screen()`. -/
def ScreenReader.Screen (sr : ScreenReader) : GoString := screenOf sr.emuRaw

/-- Source `ScreenReader.Diff()`: returns the diff text and the updated state. -/
def ScreenReader.Diff (sr : ScreenReader) : GoString × ScreenReader :=
  let current := screenOf sr.emuRaw
  if current = sr.lastScreen then ([], sr)
  else (diffScreens sr.lastScreen current, { sr with lastScreen := current })

/-- C3 counterexample: with baseline `"a\nx\nb"` and current screen
`"a\n\nb"` the screens differ, yet `Diff` returns the empty string — the
only changed line is blank and `strings.TrimSpace` erases it.  So Diff
empty does not imply the screen equals the baseline. -/
theorem diff_empty_but_screen_changed :
    (ScreenReader.Diff { emuRaw := ("a\n\nb".toList), lastScreen := ("a\nx\nb".toList) }).1
        = [] ∧
      ScreenReader.Screen { emuRaw := ("a\n\nb".toList), lastScreen := ("a\nx\nb".toList) }
        ≠ ("a\nx\nb".toList) := by
  constructor
  · decide
  · decide

/-- C3 amended: `Diff` returns the empty string whenever `Screen()` equals
the previously captured baseline, and the first call (empty baseline)
returns the full screen; the converse direction fails (see the
counterexample). -/
theorem diff_of_screenreader (sr : ScreenReader) :
    (ScreenReader.Screen sr = sr.lastScreen → (ScreenReader.Diff sr).1 = []) ∧
      (sr.lastScreen = [] → (ScreenReader.Diff sr).1 = ScreenReader.Screen sr) := by
  constructor
  · intro h
    unfold ScreenReader.Diff
    simp only [ScreenReader.Screen] at h
    simp [h]
  · intro h
    unfold ScreenReader.Diff ScreenReader.Screen
    by_cases hc : screenOf sr.emuRaw = sr.lastScreen
    · simp [hc, h]
    · simp only [hc, if_false]
      rw [h]
      unfold diffScreens
      simp

/-- C3 amended witness: on a fresh reader the first `Diff` returns the full
screen. -/
theorem diff_of_screenreader_witness :
    (ScreenReader.Diff { emuRaw := ("hi".toList), lastScreen := [] }).1 =
      ScreenReader.Screen { emuRaw := ("hi".toList), lastScreen := [] } :=
  (diff_of_screenreader { emuRaw := ("hi".toList), lastScreen := [] }).2 rfl

/-- Unix signals used by the teardown path. -/
inductive Sig
  | sighup
  | sigterm
  | sigkill
deriving DecidableEq

/-- Observable events of the PTY teardown, in program order.  `deliver sig t`
is a kernel signal delivery to target `t` (`syscall.Kill(t, sig)` for an
explicit target; Go's `Process.Signal`/`Process.Kill` deliver to the
process's own positive pid). -/
inductive ProcEvent
  | deliver (sig : Sig) (target : Int)
  | sleepMs (ms : Nat)
  | reapWait
  | closePtmx
deriving DecidableEq

/-- Source `killProcessGroup` (terminal_unix.go): no-op without a process or with a
non-positive pid; otherwise SIGHUP to `-pid`, 100 ms, SIGTERM via
`Process.Signal` (target `pid`), 50 ms, SIGKILL via `Process.Kill`
(target `pid`). -/
def killProcessGroup (hasProcess : Bool) (pid : Int) : List ProcEvent :=
  if hasProcess = false ∨ pid ≤ 0 then []
  else
    [ProcEvent.deliver Sig.sighup (-pid), ProcEvent.sleepMs 100,
     ProcEvent.deliver Sig.sigterm pid, ProcEvent.sleepMs 50,
     ProcEvent.deliver Sig.sigkill pid]

/-- The process-facing events of `Terminal.Close`: the same signal walk when
a process with positive pid exists, then `cmd.Wait()` (reap), then
`ptmx.Close()`. -/
def terminalCloseEvents (hasProcess : Bool) (pid : Int) : List ProcEvent :=
  (if hasProcess then
    (if 0 < pid then
      [ProcEvent.deliver Sig.sighup (-pid), ProcEvent.sleepMs 100,
       ProcEvent.deliver Sig.sigterm pid, ProcEvent.sleepMs 50,
       ProcEvent.deliver Sig.sigkill pid]
     else []) ++ [ProcEvent.reapWait]
   else []) ++ [ProcEvent.closePtmx]

/-- The kill sequence as the specification words it: all three signals
delivered to the negative process-group id, then the child reaped. -/
def claimedCloseEvents (pid : Int) : List ProcEvent :=
  [ProcEvent.deliver Sig.sighup (-pid), ProcEvent.sleepMs 100,
   ProcEvent.deliver Sig.sigterm (-pid), ProcEvent.sleepMs 50,
   ProcEvent.deliver Sig.sigkill (-pid), ProcEvent.reapWait, ProcEvent.closePtmx]

/-- C1 counterexample: at pid 42, `Terminal.Close` does not emit the claimed
sequence — SIGTERM (and SIGKILL) are delivered to the positive pid 42 via
`Process.Signal`/`Process.Kill`, never to the group id −42. -/
theorem close_not_all_signals_to_group :
    terminalCloseEvents true 42 ≠ claimedCloseEvents 42 ∧
      ProcEvent.deliver Sig.sigterm (-42) ∉ terminalCloseEvents true 42 ∧
      ProcEvent.deliver Sig.sigkill (-42) ∉ terminalCloseEvents true 42 := by
  refine ⟨by decide, by decide, by decide⟩

/-- C1 amended: for a live child with positive pid, `Terminal.Close` emits
SIGHUP to the negative group id, pauses 100 ms, SIGTERM to the child's own
pid, pauses 50 ms, SIGKILL to the child's own pid, then reaps the child and
closes the PTY handle; `killProcessGroup` performs the same signal walk. -/
theorem terminalClose_signal_walk (pid : Int) (h : 0 < pid) :
    terminalCloseEvents true pid =
      [ProcEvent.deliver Sig.sighup (-pid), ProcEvent.sleepMs 100,
       ProcEvent.deliver Sig.sigterm pid, ProcEvent.sleepMs 50,
       ProcEvent.deliver Sig.sigkill pid, ProcEvent.reapWait, ProcEvent.closePtmx] ∧
      killProcessGroup true pid =
        [ProcEvent.deliver Sig.sighup (-pid), ProcEvent.sleepMs 100,
         ProcEvent.deliver Sig.sigterm pid, ProcEvent.sleepMs 50,
         ProcEvent.deliver Sig.sigkill pid] := by
  constructor
  · unfold terminalCloseEvents
    simp [h]
  · unfold killProcessGroup
    have : ¬ (true = false ∨ pid ≤ 0) := by
      rintro (hf | hle)
      · cases hf
      · exact absurd h (not_lt.mpr hle)
    simp [this, h]

/-- C1 amended witness: the signal walk at pid 42. -/
theorem terminalClose_signal_walk_witness :
    terminalCloseEvents true 42 =
      [ProcEvent.deliver Sig.sighup (-42), ProcEvent.sleepMs 100,
       ProcEvent.deliver Sig.sigterm 42, ProcEvent.sleepMs 50,
       ProcEvent.deliver Sig.sigkill 42, ProcEvent.reapWait, ProcEvent.closePtmx] :=
  (terminalClose_signal_walk 42 (by decide)).1

/-- The backward scan of `splitAtSafeBoundary`: starting from the cut point
`m`, examine indices `m-1-k` for up to `r` steps (the source runs 10, staying
non-negative).  A `;` means the last entity is complete — keep the cut at
`m`; a `&` means an entity would be split — retreat the cut to just before
it. -/
def chooseEndAux (s : GoString) (m : Nat) : Nat → Nat → Nat
  | 0, _ => m
  | r + 1, k =>
    if m ≤ k then m
    else
      let j := m - 1 - k
      let c := s.getD j ' '
      if c = ';' then m
      else if c = '&' then j
      else chooseEndAux s m r (k + 1)

/-- The cut position chosen by one iteration of `splitAtSafeBoundary`. -/
def chooseEnd (s : GoString) (m : Nat) : Nat := chooseEndAux s m 10 0

/-- The `for len(s) > maxLen` loop of `splitAtSafeBoundary`, with explicit
fuel.  For `maxLen ≤ 10` and a pathological head the Go loop would not make
progress (it cuts an empty part forever); fuel exhaustion bails out.  For
`maxLen ≥ 11` every cut removes at least one character, so fuel equal to the
string length is never exhausted. -/
def splitSafeAux (m : Nat) : Nat → GoString → List GoString
  | 0, s => if s.isEmpty then [] else [s]
  | fuel + 1, s =>
    if m < s.length then
      s.take (chooseEnd s m) :: splitSafeAux m fuel (s.drop (chooseEnd s m))
    else if s.isEmpty then [] else [s]

/-- Source `splitAtSafeBoundary(s, maxLen)`. -/
def splitAtSafeBoundary (s : GoString) (m : Nat) : List GoString :=
  splitSafeAux m s.length s

/-- Leftmost occurrence of `sep` in `s` (`strings.Index`). -/
def findSub (sep s : GoString) : Option Nat :=
  (List.range (s.length + 1)).find? (fun i => sep.isPrefixOf (s.drop i))

/-- Fueled worker for `strings.Split` with a multi-character separator. -/
def goSplitSubAux (sep : GoString) : Nat → GoString → List GoString
  | 0, s => [s]
  | fuel + 1, s =>
    match findSub sep s with
    | none => [s]
    | some i => s.take i :: goSplitSubAux sep fuel (s.drop (i + sep.length))

/-- Go `strings.Split(s, sep)` for a non-empty separator. -/
def goSplitSub (sep s : GoString) : List GoString :=
  goSplitSubAux sep (s.length + 1) s

/-- The `for j, sc := range subChunks` loop of `splitFormattedMessage`:
every sub-chunk but the last is flushed as its own chunk (joined to the
pending buffer when one exists); the last sub-chunk is left in the buffer. -/
def processSubChunks : List GoString → List GoString → GoString →
    List GoString × GoString
  | [], chunks, current => (chunks, current)
  | [sc], chunks, current =>
    (chunks, if current.length ≠ 0 then current ++ '\n' :: sc else sc)
  | sc :: sc2 :: rest, chunks, current =>
    if current.length ≠ 0 then
      processSubChunks (sc2 :: rest) (chunks ++ [trimSpace (current ++ '\n' :: sc)]) []
    else
      processSubChunks (sc2 :: rest) (chunks ++ [trimSpace sc]) []

/-- Source `splitFormattedMessage(formatted, maxLen)`: paragraph-first splitting
with single-newline and hard-cut fallbacks, keeping a `strings.Builder`
buffer (`current`) and flushing it (white-space-trimmed) into `chunks`. -/
def splitFormattedMessage (formatted : GoString) (maxLen : Nat) : List GoString :=
  if formatted.length ≤ maxLen then [formatted]
  else
    let paragraphs := goSplitSub ("\n\n".toList) formatted
    let st := paragraphs.foldl
      (fun (st : List GoString × GoString) para =>
        let chunks := st.1
        let current := st.2
        let st1 : List GoString × GoString :=
          if current.length ≠ 0 ∧ maxLen < current.length + 2 + para.length then
            (chunks ++ [trimSpace current], [])
          else (chunks, current)
        if maxLen < para.length then
          (splitChar '\n' para).foldl
            (fun (st2 : List GoString × GoString) line =>
              let chunks2 := st2.1
              let current2 := st2.2
              let st3 : List GoString × GoString :=
                if current2.length ≠ 0 ∧ maxLen < current2.length + 1 + line.length then
                  (chunks2 ++ [trimSpace current2], [])
                else (chunks2, current2)
              if maxLen < line.length then
                processSubChunks (splitAtSafeBoundary line maxLen) st3.1 st3.2
              else
                (st3.1, if st3.2.length ≠ 0 then st3.2 ++ '\n' :: line else line))
            st1
        else
          (st1.1,
           (if st1.2.length ≠ 0 then st1.2 ++ ("\n\n".toList) else st1.2) ++ para))
      ([], [])
    if st.2.length ≠ 0 then st.1 ++ [trimSpace st.2] else st.1

/-- C2 counterexample: at limit 2, the splitter turns `"a\n\nb"` into the
chunks `"a"` and `"b"` — the paragraph separator is dropped, so the
concatenation of the splitter's output is `"ab"`, not the input. -/
theorem splitFormattedMessage_not_concat :
    (splitFormattedMessage ("a\n\nb".toList) 2).flatten ≠ ("a\n\nb".toList) ∧
      splitFormattedMessage ("a\n\nb".toList) 2 = [("a".toList), ("b".toList)] := by
  refine ⟨by decide, by decide⟩

theorem chooseEndAux_succ (s : GoString) (m r k : Nat) :
    chooseEndAux s m (r + 1) k =
      if m ≤ k then m
      else if s.getD (m - 1 - k) ' ' = ';' then m
      else if s.getD (m - 1 - k) ' ' = '&' then m - 1 - k
      else chooseEndAux s m r (k + 1) := rfl

theorem chooseEndAux_le (s : GoString) (m : Nat) :
    ∀ r k, chooseEndAux s m r k ≤ m := by
  intro r
  induction r with
  | zero => intro k; exact le_refl m
  | succ r ih =>
    intro k
    rw [chooseEndAux_succ]
    by_cases h1 : m ≤ k
    · rw [if_pos h1]
    · rw [if_neg h1]
      by_cases h2 : s.getD (m - 1 - k) ' ' = ';'
      · rw [if_pos h2]
      · rw [if_neg h2]
        by_cases h3 : s.getD (m - 1 - k) ' ' = '&'
        · rw [if_pos h3]; omega
        · rw [if_neg h3]; exact ih (k + 1)

theorem chooseEnd_le (s : GoString) (m : Nat) : chooseEnd s m ≤ m :=
  chooseEndAux_le s m 10 0

theorem chooseEndAux_pos (s : GoString) (m : Nat) (hm : 11 ≤ m) :
    ∀ r k, k + r ≤ 10 → 1 ≤ chooseEndAux s m r k := by
  intro r
  induction r with
  | zero => intro k _; show 1 ≤ m; omega
  | succ r ih =>
    intro k hk
    rw [chooseEndAux_succ]
    by_cases h1 : m ≤ k
    · rw [if_pos h1]; omega
    · rw [if_neg h1]
      by_cases h2 : s.getD (m - 1 - k) ' ' = ';'
      · rw [if_pos h2]; omega
      · rw [if_neg h2]
        by_cases h3 : s.getD (m - 1 - k) ' ' = '&'
        · rw [if_pos h3]; omega
        · rw [if_neg h3]; exact ih (k + 1) (by omega)

theorem chooseEnd_pos (s : GoString) (m : Nat) (hm : 11 ≤ m) :
    1 ≤ chooseEnd s m :=
  chooseEndAux_pos s m hm 10 0 (by omega)

theorem chooseEndAux_amp (s : GoString) (m : Nat) :
    ∀ r k, chooseEndAux s m r k ≠ m →
      s.getD (chooseEndAux s m r k) ' ' = '&' := by
  intro r
  induction r with
  | zero => intro k h; exact absurd rfl h
  | succ r ih =>
    intro k h
    rw [chooseEndAux_succ] at h ⊢
    by_cases h1 : m ≤ k
    · rw [if_pos h1] at h; exact absurd rfl h
    · rw [if_neg h1] at h ⊢
      by_cases h2 : s.getD (m - 1 - k) ' ' = ';'
      · rw [if_pos h2] at h; exact absurd rfl h
      · rw [if_neg h2] at h ⊢
        by_cases h3 : s.getD (m - 1 - k) ' ' = '&'
        · rw [if_pos h3] at h ⊢; exact h3
        · rw [if_neg h3] at h ⊢; exact ih (k + 1) h

theorem chooseEndAux_finds (s : GoString) (m : Nat) :
    ∀ r k p, p < m → s.getD p ' ' = '&' →
      (∀ j, p < j → j < m → s.getD j ' ' ≠ '&' ∧ s.getD j ' ' ≠ ';') →
      k ≤ m - 1 - p → m - 1 - p < k + r →
      chooseEndAux s m r k = p := by
  intro r
  induction r with
  | zero => intro k p hpm _ _ hk hr; omega
  | succ r ih =>
    intro k p hpm hamp hbody hk hr
    rw [chooseEndAux_succ]
    have hkm : ¬ m ≤ k := by omega
    rw [if_neg hkm]
    by_cases hkp : k = m - 1 - p
    · have hj : m - 1 - k = p := by omega
      rw [hj, hamp]
      rw [if_neg (by decide : ¬ ('&' : Char) = ';')]
      exact if_pos rfl
    · have hjgt : p < m - 1 - k := by omega
      have hjlt : m - 1 - k < m := by omega
      obtain ⟨hna, hns⟩ := hbody (m - 1 - k) hjgt hjlt
      rw [if_neg hns, if_neg hna]
      exact ih (k + 1) p hpm hamp hbody (by omega) (by omega)

/-- The cut position `e` lies strictly inside a minimal HTML entity of `s`:
there is a `&` before the cut whose matching `;` (with no other `&` or `;`
in between) lies at or after the cut, the whole entity spanning at most 11
characters (every entity `html.EscapeString` produces spans at most 6). -/
def InsideEntity (s : GoString) (e : Nat) : Prop :=
  ∃ p q, p < e ∧ e ≤ q ∧ q < s.length ∧
    s.getD p ' ' = '&' ∧ s.getD q ' ' = ';' ∧
    (∀ k, p < k → k < q → s.getD k ' ' ≠ '&' ∧ s.getD k ' ' ≠ ';') ∧
    q - p ≤ 10

theorem not_insideEntity_zero (s : GoString) : ¬ InsideEntity s 0 := by
  rintro ⟨p, q, hp, -⟩
  exact absurd hp (Nat.not_lt_zero p)

/-- The chosen cut never lands inside a short entity: either the cut stays at
`m` — but then the scan would have found the entity's `&` within its 10-step
window — or the cut retreated to a `&`, and no entity can span the position
just before a `&`. -/
theorem chooseEnd_not_inside (s : GoString) (m : Nat) (_hm : 11 ≤ m) :
    ¬ InsideEntity s (chooseEnd s m) := by
  rintro ⟨p, q, hpe, heq, hql, hamp, hsemi, hbody, hqp⟩
  by_cases he : chooseEnd s m = m
  · have hpm : p < m := he ▸ hpe
    have hqm : m ≤ q := he ▸ heq
    have hfound : chooseEnd s m = p := by
      apply chooseEndAux_finds s m 10 0 p hpm hamp
      · intro j hj1 hj2
        exact hbody j hj1 (lt_of_lt_of_le hj2 hqm)
      · omega
      · omega
    omega
  · have hampe : s.getD (chooseEnd s m) ' ' = '&' := chooseEndAux_amp s m 10 0 he
    rcases eq_or_lt_of_le heq with heq' | hlt
    · rw [← heq'] at hsemi
      rw [hampe] at hsemi
      exact absurd hsemi (by decide)
    · exact (hbody (chooseEnd s m) hpe hlt).1 hampe

theorem getD_drop (off : Nat) :
    ∀ (s : GoString) (i : Nat), (s.drop off).getD i ' ' = s.getD (off + i) ' ' := by
  induction off with
  | zero => intro s i; simp
  | succ o ih =>
    intro s i
    cases s with
    | nil => simp
    | cons c rest =>
      have : o + 1 + i = (o + i) + 1 := by omega
      simp only [List.drop_succ_cons, this, List.getD_cons_succ]
      exact ih rest i

/-- An entity astride a later cut either starts in the already-emitted part —
then it was astride the previous cut too — or lives entirely in the
remaining suffix. -/
theorem insideEntity_shift (s : GoString) (off e : Nat)
    (hoff : ¬ InsideEntity s off) (h : InsideEntity s (off + e)) :
    InsideEntity (s.drop off) e := by
  obtain ⟨p, q, hpe, heq, hql, hamp, hsemi, hbody, hqp⟩ := h
  by_cases hpo : p < off
  · exact absurd ⟨p, q, hpo, by omega, hql, hamp, hsemi, hbody, hqp⟩ hoff
  · push_neg at hpo
    have hpq : p < q := by omega
    refine ⟨p - off, q - off, by omega, by omega, ?_, ?_, ?_, ?_, by omega⟩
    · rw [List.length_drop]; omega
    · rw [getD_drop]
      have : off + (p - off) = p := by omega
      rw [this]; exact hamp
    · rw [getD_drop]
      have : off + (q - off) = q := by omega
      rw [this]; exact hsemi
    · intro k hk1 hk2
      rw [getD_drop]
      exact hbody (off + k) (by omega) (by omega)

theorem splitSafeAux_ne_nil (m : Nat) :
    ∀ fuel (s : GoString), s ≠ [] → splitSafeAux m fuel s ≠ [] := by
  intro fuel s hs
  cases fuel with
  | zero =>
    unfold splitSafeAux
    simp [List.isEmpty_iff, hs]
  | succ f =>
    unfold splitSafeAux
    by_cases h : m < s.length
    · simp [h]
    · simp [h, List.isEmpty_iff, hs]

theorem splitSafeAux_flatten (m : Nat) (hm : 11 ≤ m) :
    ∀ fuel (s : GoString), s.length ≤ fuel →
      (splitSafeAux m fuel s).flatten = s := by
  intro fuel
  induction fuel with
  | zero =>
    intro s hl
    have hs : s = [] := List.length_eq_zero.mp (Nat.le_zero.mp hl)
    simp [splitSafeAux, hs]
  | succ f ih =>
    intro s hl
    unfold splitSafeAux
    by_cases h : m < s.length
    · simp only [h, if_true, List.flatten_cons]
      rw [ih (s.drop (chooseEnd s m)) ?_]
      · exact List.take_append_drop _ s
      · have he : 1 ≤ chooseEnd s m := chooseEnd_pos s m hm
        rw [List.length_drop]
        omega
    · by_cases hs : s = []
      · simp [h, hs]
      · simp [h, List.isEmpty_iff, hs]

/-- The internal boundaries between consecutive chunks, as absolute positions
in the original string (the final end of the last chunk is not a boundary). -/
def cutsFrom : Nat → List GoString → List Nat
  | _, [] => []
  | _, [_] => []
  | off, p :: q :: rest => (off + p.length) :: cutsFrom (off + p.length) (q :: rest)

theorem splitSafeAux_cuts (m : Nat) (hm : 11 ≤ m) (s : GoString) :
    ∀ fuel (t : GoString) (off : Nat), t = s.drop off → t.length ≤ fuel →
      ¬ InsideEntity s off →
      ∀ b ∈ cutsFrom off (splitSafeAux m fuel t), ¬ InsideEntity s b := by
  intro fuel
  induction fuel with
  | zero =>
    intro t off ht hl hoff b hb
    have hts : t = [] := List.length_eq_zero.mp (Nat.le_zero.mp hl)
    rw [hts] at hb
    simp [splitSafeAux, cutsFrom] at hb
  | succ f ih =>
    intro t off ht hl hoff b hb
    rw [show splitSafeAux m (f + 1) t =
          (if m < t.length then
            t.take (chooseEnd t m) :: splitSafeAux m f (t.drop (chooseEnd t m))
          else if t.isEmpty then [] else [t]) from rfl] at hb
    by_cases h : m < t.length
    · rw [if_pos h] at hb
      have he1 : 1 ≤ chooseEnd t m := chooseEnd_pos t m hm
      have hele : chooseEnd t m ≤ m := chooseEnd_le t m
      have hdrop_ne : t.drop (chooseEnd t m) ≠ [] := by
        intro hnil
        have := congrArg List.length hnil
        rw [List.length_drop] at this
        simp at this
        omega
      have hlen_take : (t.take (chooseEnd t m)).length = chooseEnd t m := by
        rw [List.length_take]
        omega
      have hcut : ¬ InsideEntity s (off + chooseEnd t m) := by
        intro hins
        have hsh : InsideEntity (s.drop off) (chooseEnd t m) :=
          insideEntity_shift s off (chooseEnd t m) hoff hins
        rw [← ht] at hsh
        exact chooseEnd_not_inside t m hm hsh
      cases hrest : splitSafeAux m f (t.drop (chooseEnd t m)) with
      | nil => exact absurd hrest (splitSafeAux_ne_nil m f _ hdrop_ne)
      | cons r0 rs =>
        rw [hrest] at hb
        rw [show cutsFrom off (t.take (chooseEnd t m) :: r0 :: rs) =
              (off + (t.take (chooseEnd t m)).length) ::
                cutsFrom (off + (t.take (chooseEnd t m)).length) (r0 :: rs) from rfl] at hb
        rw [hlen_take] at hb
        rcases List.mem_cons.mp hb with hb1 | hb2
        · rw [hb1]; exact hcut
        · rw [← hrest] at hb2
          apply ih (t.drop (chooseEnd t m)) (off + chooseEnd t m) ?_ ?_ hcut b hb2
          · rw [ht, List.drop_drop]
          · rw [List.length_drop]
            omega
    · rw [if_neg h] at hb
      by_cases hts : t.isEmpty
      · rw [if_pos hts] at hb
        simp [cutsFrom] at hb
      · rw [if_neg hts] at hb
        simp [cutsFrom] at hb

/-- C2 amended: the last-resort hard-cut splitter `splitAtSafeBoundary` is
the content-preserving one — for every limit ≥ 11 the concatenation of its
parts equals the input, and no internal cut lands inside a short HTML
entity (the scan-back window is 10 characters, so entities spanning up to
11 characters, which covers everything `html.EscapeString` emits, are never
split).  The full `splitFormattedMessage` does not preserve concatenation:
it drops the `"\n\n"` paragraph separators it splits on and white-space-trims
each chunk (see the counterexample). -/
theorem splitAtSafeBoundary_concat_and_entity_safe (s : GoString) (m : Nat)
    (hm : 11 ≤ m) :
    (splitAtSafeBoundary s m).flatten = s ∧
      ∀ b ∈ cutsFrom 0 (splitAtSafeBoundary s m), ¬ InsideEntity s b := by
  constructor
  · exact splitSafeAux_flatten m hm s.length s le_rfl
  · intro b hb
    exact splitSafeAux_cuts m hm s s.length s 0 (by simp) le_rfl
      (not_insideEntity_zero s) b hb

/-- C2 amended witness: a 21-character string cut at limit 11. -/
theorem splitAtSafeBoundary_concat_witness :
    (splitAtSafeBoundary ("aaaaaaaaa&amp;bbbbbbb".toList) 11).flatten =
        ("aaaaaaaaa&amp;bbbbbbb".toList) ∧
      ∀ b ∈ cutsFrom 0 (splitAtSafeBoundary ("aaaaaaaaa&amp;bbbbbbb".toList) 11),
        ¬ InsideEntity ("aaaaaaaaa&amp;bbbbbbb".toList) b :=
  splitAtSafeBoundary_concat_and_entity_safe ("aaaaaaaaa&amp;bbbbbbb".toList) 11 (by decide)

/-- Program counter of the `readOutput` worker: at the top of its loop,
between a successful read and the channel push, or exited. -/
inductive RState
  | loop
  | sending
  | exited
deriving DecidableEq

/-- Program counter of the closing thread: about to run the first `Close`,
about to run the second `Close`, or finished both. -/
inductive CState
  | first
  | second
  | finished
deriving DecidableEq

/-- Shared state of one `Terminal`: whether the `done` and `outputChan`
channels are closed, the two thread counters, and whether a Go runtime
panic (close of an already-closed channel) has occurred. -/
structure TermSys where
  doneClosed : Bool
  outClosed : Bool
  reader : RState
  closer : CState
  panicked : Bool
deriving DecidableEq

/-- A fresh terminal: both channels open, reader in its loop, `Close` not
yet called. -/
def termInit : TermSys := ⟨false, false, RState.loop, CState.first, false⟩

/-- Closing a channel: sets it closed, and records a panic when it was
closed already (Go panics on double close). -/
def closeChan (closed panicked : Bool) : Bool × Bool :=
  (true, panicked || closed)

/-- Interleaved small-step semantics of `readOutput` running concurrently
with two sequential `Close()` calls.  Reader steps follow the source: the
`select` with `default` takes the `done` branch exactly when `done` is
closed; a read returns EOF, times out, or yields data; the push either
succeeds or is abandoned when `done` closes, and every exit path closes
`outputChan` once.  The closer's guard (`select` on `done`, else `close`)
is one step: only the closer ever closes `done`, so nothing can interleave
between its check and its close. -/
inductive TermStep : TermSys → TermSys → Prop
  | readerDoneClose (s : TermSys) (h : s.reader = RState.loop)
      (hd : s.doneClosed = true) :
      TermStep s { s with outClosed := (closeChan s.outClosed s.panicked).1,
                          panicked := (closeChan s.outClosed s.panicked).2,
                          reader := RState.exited }
  | readerEOF (s : TermSys) (h : s.reader = RState.loop)
      (hd : s.doneClosed = false) :
      TermStep s { s with outClosed := (closeChan s.outClosed s.panicked).1,
                          panicked := (closeChan s.outClosed s.panicked).2,
                          reader := RState.exited }
  | readerTimeout (s : TermSys) (h : s.reader = RState.loop)
      (hd : s.doneClosed = false) :
      TermStep s s
  | readerData (s : TermSys) (h : s.reader = RState.loop)
      (hd : s.doneClosed = false) :
      TermStep s { s with reader := RState.sending }
  | readerSendOk (s : TermSys) (h : s.reader = RState.sending) :
      TermStep s { s with reader := RState.loop }
  | readerSendDone (s : TermSys) (h : s.reader = RState.sending)
      (hd : s.doneClosed = true) :
      TermStep s { s with outClosed := (closeChan s.outClosed s.panicked).1,
                          panicked := (closeChan s.outClosed s.panicked).2,
                          reader := RState.exited }
  | closeFirst (s : TermSys) (h : s.closer = CState.first) :
      TermStep s { s with doneClosed := true, closer := CState.second }
  | closeSecond (s : TermSys) (h : s.closer = CState.second) :
      TermStep s { s with doneClosed := true, closer := CState.finished }

/-- States reachable from the fresh terminal under any interleaving. -/
inductive TermReachable : TermSys → Prop
  | init : TermReachable termInit
  | step {s s' : TermSys} : TermReachable s → TermStep s s' → TermReachable s'

/-- The inductive invariant: no panic; `outputChan` is closed only by the
exited reader; once the first `Close` has run, `done` is closed. -/
def TermInv (s : TermSys) : Prop :=
  s.panicked = false ∧
    (s.outClosed = true → s.reader = RState.exited) ∧
    (s.closer ≠ CState.first → s.doneClosed = true)

theorem termInv_init : TermInv termInit := by
  refine ⟨rfl, ?_, ?_⟩
  · intro h; cases h
  · intro h; exact absurd rfl h

theorem termInv_step {s s' : TermSys} (hs : TermInv s) (hstep : TermStep s s') :
    TermInv s' := by
  obtain ⟨hp, hout, hdone⟩ := hs
  cases hstep with
  | readerDoneClose h hd =>
    have houtf : s.outClosed = false := by
      cases hov : s.outClosed with
      | false => rfl
      | true =>
        have hx := hout hov
        rw [h] at hx
        exact absurd hx (by decide)
    exact ⟨by simp [closeChan, hp, houtf], fun _ => rfl, fun hc => hdone hc⟩
  | readerEOF h hd =>
    have houtf : s.outClosed = false := by
      cases hov : s.outClosed with
      | false => rfl
      | true =>
        have hx := hout hov
        rw [h] at hx
        exact absurd hx (by decide)
    exact ⟨by simp [closeChan, hp, houtf], fun _ => rfl, fun hc => hdone hc⟩
  | readerTimeout h hd => exact ⟨hp, hout, hdone⟩
  | readerData h hd =>
    refine ⟨hp, ?_, fun hc => hdone hc⟩
    intro hov
    have hx := hout hov
    rw [h] at hx
    exact absurd hx (by decide)
  | readerSendOk h =>
    refine ⟨hp, ?_, fun hc => hdone hc⟩
    intro hov
    have hx := hout hov
    rw [h] at hx
    exact absurd hx (by decide)
  | readerSendDone h hd =>
    have houtf : s.outClosed = false := by
      cases hov : s.outClosed with
      | false => rfl
      | true =>
        have hx := hout hov
        rw [h] at hx
        exact absurd hx (by decide)
    exact ⟨by simp [closeChan, hp, houtf], fun _ => rfl, fun hc => hdone hc⟩
  | closeFirst h =>
    exact ⟨hp, hout, fun _ => rfl⟩
  | closeSecond h =>
    exact ⟨hp, hout, fun _ => rfl⟩

/-- C4: under every interleaving of the reader worker with two sequential
`Close()` calls, no step ever closes an already-closed channel (the Go
panic condition), and after both `Close` calls the `done` channel is
closed.  `Close` returns nothing, so a second call trivially reports no
error. -/
theorem terminal_close_idempotent_and_reader_safe (s : TermSys)
    (h : TermReachable s) :
    s.panicked = false ∧ (s.closer = CState.finished → s.doneClosed = true) := by
  have hinv : TermInv s := by
    induction h with
    | init => exact termInv_init
    | step hr hstep ih => exact termInv_step ih hstep
  obtain ⟨hp, -, hdone⟩ := hinv
  refine ⟨hp, ?_⟩
  intro hc
  apply hdone
  rw [hc]
  intro habs; cases habs

/-- C4 witness: a concrete interleaving — first `Close`, second `Close`,
then the reader observes `done` and shuts the output channel — reaches a
final state with no panic. -/
theorem terminal_close_idempotent_witness :
    (⟨true, true, RState.exited, CState.finished, false⟩ : TermSys).panicked = false ∧
      ((⟨true, true, RState.exited, CState.finished, false⟩ : TermSys).closer =
          CState.finished →
        (⟨true, true, RState.exited, CState.finished, false⟩ : TermSys).doneClosed = true) :=
  terminal_close_idempotent_and_reader_safe _
    (TermReachable.step
      (TermReachable.step
        (TermReachable.step TermReachable.init (TermStep.closeFirst termInit rfl))
        (TermStep.closeSecond _ rfl))
      (TermStep.readerDoneClose _ rfl rfl))

/-- The close-relevant state of one session record: registry membership, the
`Active` flag, whether the `done` channel is closed, the `doneClosed`
one-shot flag, and whether a double close (Go panic) has occurred. -/
structure SessState where
  inMap : Bool
  active : Bool
  chClosed : Bool
  doneFlag : Bool
  panicked : Bool
deriving DecidableEq

/-- A freshly created session record. -/
def sessInit : SessState := ⟨true, true, false, false, false⟩

/-- Source `Session.safeCloseDone`: under `closeMu`, close the channel only when the
one-shot flag is still unset; a close of an already-closed channel is the
panic condition. -/
def safeCloseDone (s : SessState) : SessState :=
  if s.doneFlag then s
  else { s with chClosed := true, doneFlag := true,
                panicked := s.panicked || s.chClosed }

/-- Source `TelegramBridge.stopSession` (close-relevant part): when the record is
present and active, deactivate it, remove it from the registry, then close
the stop signal through `safeCloseDone`. -/
def telegramStopSession (s : SessState) : SessState :=
  if s.inMap && s.active then
    safeCloseDone { s with active := false, inMap := false }
  else s

/-- Source `WebUIServer.stopSession` (close-relevant part): when the record is
present and active, deactivate it and close the stop channel DIRECTLY with
`close(session.done)` — without consulting or setting the one-shot flag —
then remove the record. -/
def webuiStopSession (s : SessState) : SessState :=
  if s.inMap && s.active then
    { s with active := false, inMap := false, chClosed := true,
             panicked := s.panicked || s.chClosed }
  else s

/-- C5 counterexample: `WebUIServer.stopSession` closes the channel without
setting the one-shot flag, so a subsequent `safeCloseDone` on the same
record — the call every Telegram-side closer makes — closes the channel a
second time: the panic condition.  The double close is therefore not
prevented by the one-shot flag for all closing operations. -/
theorem webui_close_then_safeClose_panics :
    (safeCloseDone (webuiStopSession sessInit)).panicked = true ∧
      (webuiStopSession sessInit).chClosed = true ∧
      (webuiStopSession sessInit).doneFlag = false := by
  refine ⟨by decide, by decide, by decide⟩

/-- Closing operations that go through the one-shot flag. -/
inductive GuardedCloseOp
  | safeClose
  | tgStop
deriving DecidableEq

/-- Run one flag-guarded closing operation. -/
def applyGuarded (s : SessState) : GuardedCloseOp → SessState
  | GuardedCloseOp.safeClose => safeCloseDone s
  | GuardedCloseOp.tgStop => telegramStopSession s

theorem applyGuarded_inv (s : SessState) (op : GuardedCloseOp)
    (h1 : s.panicked = false) (h2 : s.chClosed = s.doneFlag) :
    (applyGuarded s op).panicked = false ∧
      (applyGuarded s op).chClosed = (applyGuarded s op).doneFlag := by
  have hsafe : ∀ t : SessState, t.panicked = false → t.chClosed = t.doneFlag →
      (safeCloseDone t).panicked = false ∧
        (safeCloseDone t).chClosed = (safeCloseDone t).doneFlag := by
    intro t ht1 ht2
    unfold safeCloseDone
    by_cases hf : t.doneFlag
    · simp [hf, ht1, ht2]
    · have hfv : t.doneFlag = false := by
        cases hv : t.doneFlag with
        | false => rfl
        | true => exact absurd hv hf
      have hc : t.chClosed = false := by rw [ht2, hfv]
      simp [hf, ht1, hc]
  cases op with
  | safeClose => exact hsafe s h1 h2
  | tgStop =>
    unfold applyGuarded telegramStopSession
    by_cases hg : s.inMap && s.active
    · simp only [hg, if_true]
      exact hsafe { s with active := false, inMap := false } h1 h2
    · simp only [hg, if_false]
      exact ⟨h1, h2⟩

/-- C5 amended: every sequence of flag-guarded closes (`safeCloseDone`
itself, and the Telegram bridge's stop path which closes through it),
applied in any order to a record whose channel and flag agree, never
panics, and a final `safeCloseDone` always leaves the channel closed — the
one-shot flag makes the close idempotent.  `WebUIServer.stopSession`,
however, closes the channel directly and bypasses the flag (see the
counterexample), so its safety rests on the registry removal alone. -/
theorem guarded_close_never_panics (ops : List GuardedCloseOp) :
    ((ops ++ [GuardedCloseOp.safeClose]).foldl applyGuarded sessInit).panicked
        = false ∧
      ((ops ++ [GuardedCloseOp.safeClose]).foldl applyGuarded sessInit).chClosed
        = true := by
  have main : ∀ (l : List GuardedCloseOp) (s : SessState),
      s.panicked = false → s.chClosed = s.doneFlag →
      (l.foldl applyGuarded s).panicked = false ∧
        (l.foldl applyGuarded s).chClosed = (l.foldl applyGuarded s).doneFlag := by
    intro l
    induction l with
    | nil => intro s h1 h2; exact ⟨h1, h2⟩
    | cons op rest ih =>
      intro s h1 h2
      obtain ⟨h1', h2'⟩ := applyGuarded_inv s op h1 h2
      exact ih (applyGuarded s op) h1' h2'
  have base := main ops sessInit rfl rfl
  rw [List.foldl_append]
  constructor
  · have := applyGuarded_inv (ops.foldl applyGuarded sessInit)
      GuardedCloseOp.safeClose base.1 base.2
    simpa using this.1
  · show (safeCloseDone (ops.foldl applyGuarded sessInit)).chClosed = true
    unfold safeCloseDone
    by_cases hf : (ops.foldl applyGuarded sessInit).doneFlag
    · simp only [hf, if_true]
      rw [base.2]
      exact hf
    · simp [hf]

/-- Token lookup in the in-memory auth-session store (`s.authSessions`,
modelled as an association list; the newest binding shadows older ones,
matching Go map assignment). -/
def lookupToken (tok : GoString) : List (GoString × Nat) → Option Nat
  | [] => none
  | (k, v) :: rest => if k = tok then some v else lookupToken tok rest

/-- Go `delete(s.authSessions, token)`. -/
def removeToken (tok : GoString) (m : List (GoString × Nat)) :
    List (GoString × Nat) :=
  m.filter (fun p => decide (p.1 ≠ tok))

/-- Source `WebUIServer.isAuthenticated`: read the `session` cookie, look its value
up in the store; a missing cookie or unknown token is unauthenticated; an
expired entry (`time.Now().After(expiry)`) is deleted lazily and the
request is unauthenticated.  Returns the verdict and the updated store. -/
def isAuthenticated (auth : List (GoString × Nat)) (cookie : Option GoString)
    (now : Nat) : Bool × List (GoString × Nat) :=
  match cookie with
  | none => (false, auth)
  | some tok =>
    match lookupToken tok auth with
    | none => (false, auth)
    | some expiry =>
      if expiry < now then (false, removeToken tok auth) else (true, auth)

/-- The web-session lifetime: 24 hours, in seconds. -/
def sessionLifetime : Nat := 24 * 60 * 60

/-- Source `createAuthSession`: store the freshly generated token with expiry
`now + 24h`. -/
def createAuthSession (auth : List (GoString × Nat)) (tok : GoString)
    (now : Nat) : List (GoString × Nat) :=
  (tok, now + sessionLifetime) :: auth

/-- Lower-case hex digits, as produced by `hex.EncodeToString`. -/
def hexDigits : GoString := "0123456789abcdef".toList

/-- One byte as two hex characters. -/
def byteToHex (b : Nat) : GoString :=
  [hexDigits.getD (b / 16 % 16) '0', hexDigits.getD (b % 16) '0']

/-- Source `generateSessionToken` on given random bytes: hex-encode them. -/
def generateSessionToken (bytes : List Nat) : GoString :=
  (bytes.map byteToHex).flatten

theorem lookupToken_removeToken (tok : GoString) (m : List (GoString × Nat)) :
    lookupToken tok (removeToken tok m) = none := by
  induction m with
  | nil => rfl
  | cons p rest ih =>
    cases p with
    | mk k v =>
      by_cases h : k = tok
      · have hstep : removeToken tok ((k, v) :: rest) = removeToken tok rest := by
          unfold removeToken
          rw [List.filter_cons]
          simp [h]
        rw [hstep]
        exact ih
      · have hstep : removeToken tok ((k, v) :: rest) =
            (k, v) :: removeToken tok rest := by
          unfold removeToken
          rw [List.filter_cons]
          simp [h]
        rw [hstep]
        unfold lookupToken
        rw [if_neg h]
        exact ih

/-- C9: a request is authenticated exactly when its cookie carries a token
mapped to an unexpired expiry; an expired lookup removes the entry and
denies; tokens hex-encode their random bytes two characters per byte (so 32
bytes give 64 characters); a created session expires 24 hours after `now`. -/
theorem isAuthenticated_spec (auth : List (GoString × Nat))
    (cookie : Option GoString) (now : Nat) :
    ((isAuthenticated auth cookie now).1 = true ↔
        ∃ tok expiry, cookie = some tok ∧ lookupToken tok auth = some expiry ∧
          now ≤ expiry) ∧
      (∀ tok expiry, cookie = some tok → lookupToken tok auth = some expiry →
        expiry < now →
          (isAuthenticated auth cookie now).1 = false ∧
          lookupToken tok (isAuthenticated auth cookie now).2 = none) ∧
      (∀ bytes : List Nat, (generateSessionToken bytes).length = 2 * bytes.length) ∧
      (∀ tok, lookupToken tok (createAuthSession auth tok now) =
        some (now + 24 * 60 * 60)) := by
  refine ⟨?_, ?_, ?_, ?_⟩
  · cases cookie with
    | none =>
      simp [isAuthenticated]
    | some tok =>
      cases hl : lookupToken tok auth with
      | none =>
        simp [isAuthenticated, hl]
      | some expiry =>
        by_cases he : expiry < now
        · simp only [isAuthenticated, hl, if_pos he]
          constructor
          · intro habs; cases habs
          · rintro ⟨tok', expiry', heq, hl', hle⟩
            injection heq with heq'
            rw [← heq'] at hl'
            rw [hl] at hl'
            injection hl' with hv
            omega
        · simp only [isAuthenticated, hl, if_neg he]
          constructor
          · intro _
            exact ⟨tok, expiry, rfl, hl, by omega⟩
          · intro _; trivial
  · intro tok expiry hc hl he
    rw [hc]
    simp only [isAuthenticated, hl, if_pos he]
    exact ⟨by trivial, lookupToken_removeToken tok auth⟩
  · intro bytes
    induction bytes with
    | nil => rfl
    | cons b rest ih =>
      simp only [generateSessionToken, List.map_cons, List.flatten_cons,
        List.length_append] at ih ⊢
      rw [ih]
      simp [byteToHex]
      omega
  · intro tok
    simp [createAuthSession, lookupToken, sessionLifetime]

/-- C9 witness: an expired entry is denied and lazily removed. -/
theorem isAuthenticated_spec_witness :
    (isAuthenticated [(("t0".toList), 5)] (some ("t0".toList)) 10).1 = false ∧
      lookupToken ("t0".toList)
        (isAuthenticated [(("t0".toList), 5)] (some ("t0".toList)) 10).2 = none :=
  (isAuthenticated_spec [(("t0".toList), 5)] (some ("t0".toList)) 10).2.1
    ("t0".toList) 5 rfl (by decide) (by decide)

/-- The block-drawing runes that trigger monospace formatting
(`needsMonospace`): ▐ ▛ █ ▜ ▌ ▝ ▘ ░ ▒ ▓. -/
def monospaceRunes : GoString :=
  [Char.ofNat 0x2590, Char.ofNat 0x259B, Char.ofNat 0x2588, Char.ofNat 0x259C,
   Char.ofNat 0x258C, Char.ofNat 0x259D, Char.ofNat 0x2598, Char.ofNat 0x2591,
   Char.ofNat 0x2592, Char.ofNat 0x2593]

/-- Source `needsMonospace`: true when any rune is block drawing. -/
def needsMonospace (s : GoString) : Bool :=
  s.any (fun r => monospaceRunes.contains r)

/-- The fixed-stride chunking loop of `sendPlain`
(`for i := 0; i < len(text); i += maxLen`), with fuel (Go would not advance
when `maxLen = 0`; the caller always passes 4000). -/
def chunkEveryAux (maxLen : Nat) : Nat → GoString → List GoString
  | 0, _ => []
  | fuel + 1, s =>
    if s = [] then [] else s.take maxLen :: chunkEveryAux maxLen fuel (s.drop maxLen)

/-- All `maxLen`-sized slices of a string, in order. -/
def chunkEvery (maxLen : Nat) (s : GoString) : List GoString :=
  chunkEveryAux maxLen (s.length + 1) s

/-- One outgoing Telegram API message: plain text, or HTML-parsed text. -/
inductive TgAction
  | plainMsg (text : GoString)
  | htmlMsg (text : GoString)
deriving DecidableEq

/-- Source `TelegramSink.sendPlain`: one message when it fits, otherwise
fixed-stride chunks, each white-space-trimmed, empty chunks skipped. -/
def sendPlain (text : GoString) (maxLen : Nat) : List TgAction :=
  if text.length ≤ maxLen then [TgAction.plainMsg text]
  else
    (chunkEvery maxLen text).foldl
      (fun acc c =>
        let c' := trimSpace c
        if c' = [] then acc else acc ++ [TgAction.plainMsg c'])
      []

/-- Go `strings.TrimPrefix`. -/
def goTrimPre (pre s : GoString) : GoString :=
  if pre.isPrefixOf s then s.drop pre.length else s

/-- Go `strings.TrimSuffix`. -/
def goTrimSuf (suf s : GoString) : GoString :=
  if suf.isSuffixOf s then s.take (s.length - suf.length) else s

/-- Source `TelegramSink.sendHTML`: one message when it fits; otherwise strip the
outer tag, split the inner HTML (entity-safe hard cuts for `pre`, the
paragraph splitter otherwise), and re-wrap each non-empty trimmed chunk in
the same opening tag. -/
def sendHTML (formatted openTag : GoString) (maxLen : Nat) : List TgAction :=
  if formatted.length ≤ maxLen then [TgAction.htmlMsg formatted]
  else
    let closeTag := (fields openTag).headD []
    let tagOverhead := 2 + openTag.length + 3 + closeTag.length + 100
    let rawMaxLen := maxLen - tagOverhead
    let chunks :=
      if closeTag = ("pre".toList) then
        splitAtSafeBoundary
          (goTrimSuf ("</pre>".toList) (goTrimPre ("<pre>".toList) formatted))
          rawMaxLen
      else
        splitFormattedMessage
          (goTrimSuf ("</blockquote>".toList)
            (goTrimPre ("<blockquote>".toList)
              (goTrimPre ("<blockquote expandable>".toList) formatted)))
          rawMaxLen
    chunks.foldl
      (fun acc chunk =>
        let c := trimSpace chunk
        if c = [] then acc
        else
          acc ++ [TgAction.htmlMsg
            (('<' :: openTag) ++ '>' :: c ++ ('<' :: '/' :: closeTag) ++ ['>'])])
      []

/-- Source `TelegramSink.SendOutput`: trim the output; an empty trim returns with
no effect; otherwise classify (monospace / Markdown >500 / Markdown ≤500 /
plain) and hand off to `sendHTML` or `sendPlain` with the 4000-character
limit.  The Markdown regex pipeline stays abstract as in
`formatMarkdownToTelegramHTML`. -/
def sendOutputActions (pipeline : GoString → GoString)
    (output : GoString) : List TgAction :=
  let out := trimSpace output
  if out = [] then []
  else if needsMonospace out then
    sendHTML (("<pre>".toList) ++ escapeString out ++ ("</pre>".toList))
      ("pre".toList) 4000
  else if hasMarkdown out then
    let formatted := formatMarkdownToTelegramHTML pipeline out
    if 500 < out.length then
      sendHTML (("<blockquote expandable>".toList) ++ formatted ++
          ("</blockquote>".toList))
        ("blockquote expandable".toList) 4000
    else
      sendHTML (("<blockquote>".toList) ++ formatted ++ ("</blockquote>".toList))
        ("blockquote".toList) 4000
  else sendPlain out 4000

/-- C10: a whitespace-only output is dropped before any transport call —
`SendOutput` returns with no message and no other effect; consequently
every sent message comes from an output with non-whitespace content. -/
theorem sendOutput_empty_trim_sends_nothing (pipeline : GoString → GoString)
    (output : GoString) (h : trimSpace output = []) :
    sendOutputActions pipeline output = [] := by
  unfold sendOutputActions
  simp [h]

/-- C10 witness: a whitespace-only output produces no message. -/
theorem sendOutput_empty_trim_sends_nothing_witness :
    trimSpace ("  \n\t ".toList) = [] ∧
      sendOutputActions id ("  \n\t ".toList) = [] :=
  ⟨by decide, sendOutput_empty_trim_sends_nothing id ("  \n\t ".toList) (by decide)⟩
